import Mathlib

/-
  Shallow embedding of the allocateless linter core (main.go, and the variant
  file whose qualification rule is IsMapOrSlice).  The embedding models the
  Go AST fragment the analyzer dispatches on, the Function Scanner
  (Traverse's statement loop), the Expression Classifier (parse/parseFunc),
  and the Eligibility Decider (Traverse's report loop).
-/

namespace Allocateless

/-- Go assignment tokens distinguished by Traverse: token.DEFINE (:=),
token.ASSIGN (=), and every other token kind. -/
inductive Tok where
  | DEFINE
  | ASSIGN
  | otherTok
deriving DecidableEq, Repr

/-- The Type field of an ast.CompositeLit, as far as IsNewDefinition inspects
it: ast.MapType, ast.ArrayType (Go uses ArrayType for both arrays and
slices), or any other type expression. -/
inductive TypeExpr where
  | mapType
  | arrayType
  | otherType
deriving DecidableEq, Repr

mutual
/-- The ast.Expr shapes the analyzer dispatches on.  Fields the Go code never
reads (BasicLit's kind/value, SelectorExpr's Sel, slice bounds, index
operands) are omitted; every shape not matched anywhere falls under
otherExpr. -/
inductive Expr where
  | ident (name : String)
  | basicLit
  | selector (x : Expr)
  | binary (x y : Expr)
  | call (fn : Expr) (args : ExprList)
  | sliceExpr (x : Expr)
  | indexExpr (x : Expr)
  | indexListExpr (x : Expr)
  | paren (x : Expr)
  | compositeLit (ty : TypeExpr) (elts : ExprList)
  | keyValue (k v : Expr)
  | otherExpr

/-- A []ast.Expr, as a mutually inductive list so that the classifier is
structurally recursive. -/
inductive ExprList where
  | nil
  | cons (head : Expr) (tail : ExprList)
end

deriving instance DecidableEq for Expr

deriving instance DecidableEq for ExprList

/-- One top-level statement of a function body, as dispatched by Traverse:
an ast.AssignStmt (lhsPos models s.Lhs[0].Pos(), the position of the first
left-hand target), an ast.ExprStmt, or any other statement kind. -/
inductive Stmt where
  | assignStmt (tok : Tok) (lhs : ExprList) (lhsPos : Nat) (rhs : ExprList)
  | exprStmt (x : Expr)
  | otherStmt
deriving DecidableEq

/-- The Identifiers struct of main.go: the Analysis State accumulated for one
Function Unit. -/
structure Identifiers where
  defines : List String
  tokens : List Nat
  lhsVars : List String
  rhsVars : List String
  funcArgs : List String
deriving DecidableEq, Repr

/-- The zero value of Identifiers (r := Identifiers{}). -/
def emptyIdentifiers : Identifiers :=
  { defines := [], tokens := [], lhsVars := [], rhsVars := [], funcArgs := [] }

mutual
/-- parse of main.go: the Expression Classifier.  If function is true the
identifier is appended to funcArgs, otherwise to rhsVars.  A call
expression's arguments are classified by parseFunc (always in
argument-context); its Fun field is never visited.  Unmatched shapes do
nothing. -/
def parse (e : Expr) (r : Identifiers) (function : Bool) : Identifiers :=
  match e with
  | .binary x y => parse y (parse x r function) function
  | .ident name =>
      if function then { r with funcArgs := r.funcArgs ++ [name] }
      else { r with rhsVars := r.rhsVars ++ [name] }
  | .call _fn args => parseFunc args r
  | .sliceExpr x => parse x r function
  | .indexExpr x => parse x r function
  | .paren x => parse x r function
  | _ => r

/-- parseFunc of main.go: classify each call argument with function = true. -/
def parseFunc (es : ExprList) (r : Identifiers) : Identifiers :=
  match es with
  | .nil => r
  | .cons e rest => parseFunc rest (parse e r true)
end

/-- parseRhs of main.go: classify each right-hand expression of a plain
assignment with function = false. -/
def parseRhs (es : ExprList) (r : Identifiers) : Identifiers :=
  match es with
  | .nil => r
  | .cons e rest => parseRhs rest (parse e r false)

mutual
/-- The per-element switch of getVariableNames of main.go (the Go function
loops over the slice and runs this switch on each element; recursive cases
wrap the subterm in a singleton slice, which is the same as recursing on the
element directly). -/
def getVariableNames1 (e : Expr) : List String :=
  match e with
  | .ident name => if name ≠ "" then [name] else []
  | .paren x => getVariableNames1 x
  | .indexExpr x => getVariableNames1 x
  | .indexListExpr x => getVariableNames1 x
  | .call _fn args => getVariableNames args
  | _ => []

/-- getVariableNames of main.go: concatenate the names contributed by each
expression in the slice. -/
def getVariableNames (es : ExprList) : List String :=
  match es with
  | .nil => []
  | .cons e rest => getVariableNames1 e ++ getVariableNames rest
end

/-- BasicOrSelector of main.go. -/
def BasicOrSelector (e : Expr) : Bool :=
  match e with
  | .basicLit => true
  | .selector _ => true
  | _ => false

/-- CheckConstLiteral of main.go.  The Go function receives the
*ast.CompositeLit and reads only its Elts field; we pass the element list
directly.  The loop returns false at the first non-qualifying element. -/
def CheckConstLiteral (elts : ExprList) : Bool :=
  match elts with
  | .nil => true
  | .cons a rest =>
      match a with
      | .selector _ => CheckConstLiteral rest
      | .basicLit => CheckConstLiteral rest
      | .keyValue k v =>
          if !BasicOrSelector k || !BasicOrSelector v then false
          else CheckConstLiteral rest
      | _ => false

/-- IsNewDefinition of main.go: a single right-hand expression that is a
composite literal of map or array type passing CheckConstLiteral, or a bare
basic literal. -/
def IsNewDefinition (expr : ExprList) : Bool :=
  match expr with
  | .cons e .nil =>
      match e with
      | .compositeLit ty elts =>
          match ty with
          | .mapType => CheckConstLiteral elts
          | .arrayType => CheckConstLiteral elts
          | .otherType => false
      | .basicLit => true
      | _ => false
  | _ => false

/-- IsMapOrSlice of the variant file: identical to IsNewDefinition except
that a bare basic literal does not qualify. -/
def IsMapOrSlice (expr : ExprList) : Bool :=
  match expr with
  | .cons e .nil =>
      match e with
      | .compositeLit ty elts =>
          match ty with
          | .mapType => CheckConstLiteral elts
          | .arrayType => CheckConstLiteral elts
          | .otherType => false
      | _ => false
  | _ => false

/-- The statement loop of Traverse (main.go): fold the Function Scanner over
the body's top-level statements.  A DEFINE with a qualifying literal appends
the left-hand names to defines and the first left-hand position to tokens;
an ASSIGN appends the left-hand names to lhsVars and classifies the
right-hand side; a bare expression statement is classified with
function = false; everything else is ignored. -/
def scanStmt (r : Identifiers) (s : Stmt) : Identifiers :=
  match s with
  | .assignStmt tok lhs lhsPos rhs =>
      if tok = .DEFINE ∧ IsNewDefinition rhs then
        { r with defines := r.defines ++ getVariableNames lhs,
                 tokens := r.tokens ++ [lhsPos] }
      else if tok = .ASSIGN then
        parseRhs rhs { r with lhsVars := r.lhsVars ++ getVariableNames lhs }
      else r
  | .exprStmt x => parse x r false
  | .otherStmt => r

/-- The Function Scanner over one Function Unit: Traverse's statement loop
starting from the zero-valued Identifiers. -/
def TraverseScan (body : List Stmt) : Identifiers :=
  body.foldl scanStmt emptyIdentifiers

/-- The report loop of Traverse (the Eligibility Decider), with the loop
index made explicit: for defines[i] not contained in funcArgs and not
contained in lhsVars, report (tokens[i], defines[i]).  The Go expression
r.tokens[i] panics when i is out of range; the panic aborting the loop is
modelled by returning none. -/
def deciderAux (funcArgs lhsVars : List String) (tokens : List Nat)
    (i : Nat) (defines : List String) : Option (List (Nat × String)) :=
  match defines with
  | [] => some []
  | v :: rest =>
      if funcArgs.contains v then deciderAux funcArgs lhsVars tokens (i + 1) rest
      else if lhsVars.contains v then deciderAux funcArgs lhsVars tokens (i + 1) rest
      else
        match tokens[i]? with
        | none => none
        | some p =>
            (deciderAux funcArgs lhsVars tokens (i + 1) rest).map
              (fun fs => (p, v) :: fs)

/-- The Eligibility Decider on a completed Analysis State. -/
def Decide (r : Identifiers) : Option (List (Nat × String)) :=
  deciderAux r.funcArgs r.lhsVars r.tokens 0 r.defines

/-- Traverse on one Function Unit: scan the body, then decide.  The emitted
Findings are the (position, name) pairs passed to pass.Reportf, in emission
order; none models the index-out-of-range panic. -/
def Traverse (body : List Stmt) : Option (List (Nat × String)) :=
  Decide (TraverseScan body)

/-
  Specification-side helper functions.  They restate, as standalone
  list-valued functions, which names each phase of the scanner contributes
  to each field of the Analysis State; the lemmas below prove them equal to
  the fields the source-derived functions accumulate.
-/

mutual
/-- The names the Expression Classifier records into funcArgs when started
on an expression in the given mode: identifiers reached in
argument-context. -/
def argIdents (function : Bool) : Expr → List String
  | .binary x y => argIdents function x ++ argIdents function y
  | .ident name => if function then [name] else []
  | .call _fn args => argIdentsArgs args
  | .sliceExpr x => argIdents function x
  | .indexExpr x => argIdents function x
  | .paren x => argIdents function x
  | _ => []

/-- The names recorded into funcArgs from a call's argument list: every
argument is classified in argument-context. -/
def argIdentsArgs : ExprList → List String
  | .nil => []
  | .cons e rest => argIdents true e ++ argIdentsArgs rest
end

/-- The names recorded into funcArgs while classifying the right-hand sides
of a plain assignment (each right-hand expression starts in
plain-use-context). -/
def argIdentsRhs : ExprList → List String
  | .nil => []
  | .cons e rest => argIdents false e ++ argIdentsRhs rest

/-- The names one top-level statement contributes to funcArgs. -/
def stmtArgIdents : Stmt → List String
  | .assignStmt tok _lhs _p rhs =>
      if tok = .DEFINE ∧ IsNewDefinition rhs then []
      else if tok = .ASSIGN then argIdentsRhs rhs
      else []
  | .exprStmt x => argIdents false x
  | .otherStmt => []

/-- The names a Function Unit contributes to funcArgs: names reached as a
call argument through any plain-use or argument-context classifier path of
any scanned statement. -/
def bodyArgIdents : List Stmt → List String
  | [] => []
  | s :: rest => stmtArgIdents s ++ bodyArgIdents rest

/-- The names one top-level statement contributes to lhsVars. -/
def stmtLhsNames : Stmt → List String
  | .assignStmt tok lhs _p rhs =>
      if tok = .DEFINE ∧ IsNewDefinition rhs then []
      else if tok = .ASSIGN then getVariableNames lhs
      else []
  | .exprStmt _ => []
  | .otherStmt => []

/-- The names a Function Unit contributes to lhsVars. -/
def bodyLhsNames : List Stmt → List String
  | [] => []
  | s :: rest => stmtLhsNames s ++ bodyLhsNames rest

/-- The names one top-level statement contributes to defines. -/
def stmtDefNames : Stmt → List String
  | .assignStmt tok lhs _p rhs =>
      if tok = .DEFINE ∧ IsNewDefinition rhs then getVariableNames lhs
      else []
  | .exprStmt _ => []
  | .otherStmt => []

/-- The positions one top-level statement contributes to tokens. -/
def stmtDefTokens : Stmt → List Nat
  | .assignStmt tok _lhs lhsPos rhs =>
      if tok = .DEFINE ∧ IsNewDefinition rhs then [lhsPos]
      else []
  | .exprStmt _ => []
  | .otherStmt => []

/-- The (position, name) pairs one top-level statement contributes to
definitions: every introduced name paired with the position of the first
left-hand target of its statement. -/
def stmtDefPairs : Stmt → List (Nat × String)
  | .assignStmt tok lhs lhsPos rhs =>
      if tok = .DEFINE ∧ IsNewDefinition rhs then
        (getVariableNames lhs).map (fun n => (lhsPos, n))
      else []
  | .exprStmt _ => []
  | .otherStmt => []

/-- The names a Function Unit contributes to defines. -/
def bodyDefNames : List Stmt → List String
  | [] => []
  | s :: rest => stmtDefNames s ++ bodyDefNames rest

/-- The positions a Function Unit contributes to tokens. -/
def bodyDefTokens : List Stmt → List Nat
  | [] => []
  | s :: rest => stmtDefTokens s ++ bodyDefTokens rest

/-- The (position, name) definition pairs of a Function Unit. -/
def bodyDefPairs : List Stmt → List (Nat × String)
  | [] => []
  | s :: rest => stmtDefPairs s ++ bodyDefPairs rest

/-- An element of a composite literal that the spec's qualification rule
accepts: a selector expression, a basic literal, or a key/value pair whose
key and value are each a selector expression or a basic literal. -/
def elemQualifies (a : Expr) : Bool :=
  match a with
  | .selector _ => true
  | .basicLit => true
  | .keyValue k v => BasicOrSelector k && BasicOrSelector v
  | _ => false

/-- An element kind the spec names as disqualifying: a nested composite
literal, a function-call result, or a bare identifier. -/
def disqualifying (a : Expr) : Bool :=
  match a with
  | .compositeLit _ _ => true
  | .call _ _ => true
  | .ident _ => true
  | _ => false

/-- Every element of the list satisfies the boolean predicate. -/
def allElems (p : Expr → Bool) : ExprList → Bool
  | .nil => true
  | .cons e rest => p e && allElems p rest

/-- Some element of the list satisfies the boolean predicate. -/
def anyElem (p : Expr → Bool) : ExprList → Bool
  | .nil => false
  | .cons e rest => p e || anyElem p rest

/-- Scenario A of the spec: a := map[string]string{}; a = nil. -/
def scenarioA : List Stmt :=
  [.assignStmt .DEFINE (.cons (.ident "a") .nil) 1
      (.cons (.compositeLit .mapType .nil) .nil),
   .assignStmt .ASSIGN (.cons (.ident "a") .nil) 2
      (.cons (.ident "nil") .nil)]

/-- Scenario B of the spec: d := "a"; c := []string{}; b := "x" + d. -/
def scenarioB : List Stmt :=
  [.assignStmt .DEFINE (.cons (.ident "d") .nil) 1
      (.cons .basicLit .nil),
   .assignStmt .DEFINE (.cons (.ident "c") .nil) 2
      (.cons (.compositeLit .arrayType .nil) .nil),
   .assignStmt .DEFINE (.cons (.ident "b") .nil) 3
      (.cons (.binary .basicLit (.ident "d")) .nil)]

/-- A unit whose defined variable is passed to a call inside a later
non-qualifying short-form declaration: x := map[string]string{}; y := Do(x). -/
def scenarioDefineCall : List Stmt :=
  [.assignStmt .DEFINE (.cons (.ident "x") .nil) 1
      (.cons (.compositeLit .mapType .nil) .nil),
   .assignStmt .DEFINE (.cons (.ident "y") .nil) 2
      (.cons (.call (.ident "Do") (.cons (.ident "x") .nil)) .nil)]

/-- A unit whose defined variable is passed to a call in a bare expression
statement: x := map[string]string{}; Do(x). -/
def scenarioBareCall : List Stmt :=
  [.assignStmt .DEFINE (.cons (.ident "x") .nil) 1
      (.cons (.compositeLit .mapType .nil) .nil),
   .exprStmt (.call (.ident "Do") (.cons (.ident "x") .nil))]

/-- A unit whose defined variable is written through an index target:
m := map[string]string{}; m["k"] = v. -/
def scenarioIndexWrite : List Stmt :=
  [.assignStmt .DEFINE (.cons (.ident "m") .nil) 1
      (.cons (.compositeLit .mapType .nil) .nil),
   .assignStmt .ASSIGN (.cons (.indexExpr (.ident "m")) .nil) 2
      (.cons (.ident "v") .nil)]

/-
  Structural lemmas: the classifier touches only rhsVars and funcArgs, and
  the names it appends to funcArgs are exactly the argument-context
  identifiers.
-/

mutual
theorem parse_frame (e : Expr) (r : Identifiers) (function : Bool) :
    (parse e r function).defines = r.defines ∧
    (parse e r function).tokens = r.tokens ∧
    (parse e r function).lhsVars = r.lhsVars := by
  cases e with
  | binary x y =>
      have h1 := parse_frame x r function
      have h2 := parse_frame y (parse x r function) function
      simp only [parse]
      exact ⟨h2.1.trans h1.1, h2.2.1.trans h1.2.1, h2.2.2.trans h1.2.2⟩
  | ident name =>
      simp only [parse]
      cases function <;> simp
  | call fn args =>
      simp only [parse]
      exact parseFunc_frame args r
  | sliceExpr x => simp only [parse]; exact parse_frame x r function
  | indexExpr x => simp only [parse]; exact parse_frame x r function
  | paren x => simp only [parse]; exact parse_frame x r function
  | basicLit => simp [parse]
  | selector x => simp [parse]
  | indexListExpr x => simp [parse]
  | compositeLit ty elts => simp [parse]
  | keyValue k v => simp [parse]
  | otherExpr => simp [parse]

theorem parseFunc_frame (es : ExprList) (r : Identifiers) :
    (parseFunc es r).defines = r.defines ∧
    (parseFunc es r).tokens = r.tokens ∧
    (parseFunc es r).lhsVars = r.lhsVars := by
  cases es with
  | nil => simp [parseFunc]
  | cons e rest =>
      have h1 := parse_frame e r true
      have h2 := parseFunc_frame rest (parse e r true)
      simp only [parseFunc]
      exact ⟨h2.1.trans h1.1, h2.2.1.trans h1.2.1, h2.2.2.trans h1.2.2⟩
end

theorem parseRhs_frame (es : ExprList) (r : Identifiers) :
    (parseRhs es r).defines = r.defines ∧
    (parseRhs es r).tokens = r.tokens ∧
    (parseRhs es r).lhsVars = r.lhsVars := by
  cases es with
  | nil => simp [parseRhs]
  | cons e rest =>
      have h1 := parse_frame e r false
      have h2 := parseRhs_frame rest (parse e r false)
      simp only [parseRhs]
      exact ⟨h2.1.trans h1.1, h2.2.1.trans h1.2.1, h2.2.2.trans h1.2.2⟩

mutual
theorem parse_funcArgs (e : Expr) (r : Identifiers) (function : Bool) :
    (parse e r function).funcArgs = r.funcArgs ++ argIdents function e := by
  cases e with
  | binary x y =>
      have h1 := parse_funcArgs x r function
      have h2 := parse_funcArgs y (parse x r function) function
      simp only [parse, argIdents]
      rw [h2, h1, List.append_assoc]
  | ident name =>
      simp only [parse, argIdents]
      cases function <;> simp
  | call fn args =>
      simp only [parse, argIdents]
      exact parseFunc_funcArgs args r
  | sliceExpr x => simp only [parse, argIdents]; exact parse_funcArgs x r function
  | indexExpr x => simp only [parse, argIdents]; exact parse_funcArgs x r function
  | paren x => simp only [parse, argIdents]; exact parse_funcArgs x r function
  | basicLit => simp [parse, argIdents]
  | selector x => simp [parse, argIdents]
  | indexListExpr x => simp [parse, argIdents]
  | compositeLit ty elts => simp [parse, argIdents]
  | keyValue k v => simp [parse, argIdents]
  | otherExpr => simp [parse, argIdents]

theorem parseFunc_funcArgs (es : ExprList) (r : Identifiers) :
    (parseFunc es r).funcArgs = r.funcArgs ++ argIdentsArgs es := by
  cases es with
  | nil => simp [parseFunc, argIdentsArgs]
  | cons e rest =>
      have h1 := parse_funcArgs e r true
      have h2 := parseFunc_funcArgs rest (parse e r true)
      simp only [parseFunc, argIdentsArgs]
      rw [h2, h1, List.append_assoc]
end

theorem parseRhs_funcArgs (es : ExprList) (r : Identifiers) :
    (parseRhs es r).funcArgs = r.funcArgs ++ argIdentsRhs es := by
  cases es with
  | nil => simp [parseRhs, argIdentsRhs]
  | cons e rest =>
      have h1 := parse_funcArgs e r false
      have h2 := parseRhs_funcArgs rest (parse e r false)
      simp only [parseRhs, argIdentsRhs]
      rw [h2, h1, List.append_assoc]

/-
  Scanner lemmas: each statement appends exactly its contribution to each
  field of the Analysis State, and the fold over the body concatenates the
  per-statement contributions.
-/

theorem scanStmt_defines (r : Identifiers) (s : Stmt) :
    (scanStmt r s).defines = r.defines ++ stmtDefNames s := by
  cases s with
  | assignStmt tok lhs lhsPos rhs =>
      simp only [scanStmt, stmtDefNames]
      by_cases h1 : tok = .DEFINE ∧ IsNewDefinition rhs
      · simp [h1]
      · simp only [if_neg h1]
        by_cases h2 : tok = .ASSIGN
        · simp [h2, (parseRhs_frame rhs _).1]
        · simp [h1, h2]
  | exprStmt x =>
      simp only [scanStmt, stmtDefNames]
      simp [(parse_frame x r false).1]
  | otherStmt => simp [scanStmt, stmtDefNames]

theorem scanStmt_tokens (r : Identifiers) (s : Stmt) :
    (scanStmt r s).tokens = r.tokens ++ stmtDefTokens s := by
  cases s with
  | assignStmt tok lhs lhsPos rhs =>
      simp only [scanStmt, stmtDefTokens]
      by_cases h1 : tok = .DEFINE ∧ IsNewDefinition rhs
      · simp [h1]
      · simp only [if_neg h1]
        by_cases h2 : tok = .ASSIGN
        · simp [h2, (parseRhs_frame rhs _).2.1]
        · simp [h1, h2]
  | exprStmt x =>
      simp only [scanStmt, stmtDefTokens]
      simp [(parse_frame x r false).2.1]
  | otherStmt => simp [scanStmt, stmtDefTokens]

theorem scanStmt_lhsVars (r : Identifiers) (s : Stmt) :
    (scanStmt r s).lhsVars = r.lhsVars ++ stmtLhsNames s := by
  cases s with
  | assignStmt tok lhs lhsPos rhs =>
      simp only [scanStmt, stmtLhsNames]
      by_cases h1 : tok = .DEFINE ∧ IsNewDefinition rhs
      · simp [h1]
      · simp only [if_neg h1]
        by_cases h2 : tok = .ASSIGN
        · simp [h2, (parseRhs_frame rhs _).2.2]
        · simp [h1, h2]
  | exprStmt x =>
      simp only [scanStmt, stmtLhsNames]
      simp [(parse_frame x r false).2.2]
  | otherStmt => simp [scanStmt, stmtLhsNames]

theorem scanStmt_funcArgs (r : Identifiers) (s : Stmt) :
    (scanStmt r s).funcArgs = r.funcArgs ++ stmtArgIdents s := by
  cases s with
  | assignStmt tok lhs lhsPos rhs =>
      simp only [scanStmt, stmtArgIdents]
      by_cases h1 : tok = .DEFINE ∧ IsNewDefinition rhs
      · simp [h1]
      · simp only [if_neg h1]
        by_cases h2 : tok = .ASSIGN
        · simp [h2, parseRhs_funcArgs rhs _]
        · simp [h1, h2]
  | exprStmt x =>
      simp only [scanStmt, stmtArgIdents]
      simp [parse_funcArgs x r false]
  | otherStmt => simp [scanStmt, stmtArgIdents]

theorem foldlScan_defines (body : List Stmt) :
    ∀ r : Identifiers, (body.foldl scanStmt r).defines = r.defines ++ bodyDefNames body := by
  induction body with
  | nil => intro r; simp [bodyDefNames]
  | cons s rest ih =>
      intro r
      simp only [List.foldl_cons, bodyDefNames]
      rw [ih, scanStmt_defines, List.append_assoc]

theorem foldlScan_tokens (body : List Stmt) :
    ∀ r : Identifiers, (body.foldl scanStmt r).tokens = r.tokens ++ bodyDefTokens body := by
  induction body with
  | nil => intro r; simp [bodyDefTokens]
  | cons s rest ih =>
      intro r
      simp only [List.foldl_cons, bodyDefTokens]
      rw [ih, scanStmt_tokens, List.append_assoc]

theorem foldlScan_lhsVars (body : List Stmt) :
    ∀ r : Identifiers, (body.foldl scanStmt r).lhsVars = r.lhsVars ++ bodyLhsNames body := by
  induction body with
  | nil => intro r; simp [bodyLhsNames]
  | cons s rest ih =>
      intro r
      simp only [List.foldl_cons, bodyLhsNames]
      rw [ih, scanStmt_lhsVars, List.append_assoc]

theorem foldlScan_funcArgs (body : List Stmt) :
    ∀ r : Identifiers, (body.foldl scanStmt r).funcArgs = r.funcArgs ++ bodyArgIdents body := by
  induction body with
  | nil => intro r; simp [bodyArgIdents]
  | cons s rest ih =>
      intro r
      simp only [List.foldl_cons, bodyArgIdents]
      rw [ih, scanStmt_funcArgs, List.append_assoc]

theorem TraverseScan_defines (body : List Stmt) :
    (TraverseScan body).defines = bodyDefNames body := by
  simp [TraverseScan, foldlScan_defines, emptyIdentifiers]

theorem TraverseScan_tokens (body : List Stmt) :
    (TraverseScan body).tokens = bodyDefTokens body := by
  simp [TraverseScan, foldlScan_tokens, emptyIdentifiers]

theorem TraverseScan_lhsVars (body : List Stmt) :
    (TraverseScan body).lhsVars = bodyLhsNames body := by
  simp [TraverseScan, foldlScan_lhsVars, emptyIdentifiers]

theorem TraverseScan_funcArgs (body : List Stmt) :
    (TraverseScan body).funcArgs = bodyArgIdents body := by
  simp [TraverseScan, foldlScan_funcArgs, emptyIdentifiers]

/-
  Decider lemmas: when the definition list does not outrun the token list
  the report loop is the indicated filter, and every emitted pair's name is
  contained in neither funcArgs nor lhsVars.
-/

theorem deciderAux_eq_filter (fa lv : List String) (tokens : List Nat) :
    ∀ (defines : List String) (i : Nat), defines.length + i ≤ tokens.length →
      deciderAux fa lv tokens i defines =
        some (((tokens.drop i).zip defines).filter
          (fun pv => !(fa.contains pv.2) && !(lv.contains pv.2))) := by
  intro defines
  induction defines with
  | nil => intro i h; simp [deciderAux]
  | cons v rest ih =>
      intro i h
      have hi : i < tokens.length := by
        simp only [List.length_cons] at h
        omega
      have hdrop : tokens.drop i = tokens[i] :: tokens.drop (i + 1) :=
        List.drop_eq_getElem_cons hi
      have hrec := ih (i + 1) (by simp only [List.length_cons] at h; omega)
      rw [hdrop]
      simp only [deciderAux, List.zip_cons_cons, List.filter_cons]
      by_cases h1 : v ∈ fa
      · have hc1 : fa.contains v = true := List.elem_eq_true_of_mem h1
        simp [h1, hc1, hrec]
      · have hc1 : ¬fa.contains v = true := fun hc => h1 (List.mem_of_elem_eq_true hc)
        by_cases h2 : v ∈ lv
        · have hc2 : lv.contains v = true := List.elem_eq_true_of_mem h2
          simp [h1, h2, hc1, hc2, hrec]
        · have hc2 : ¬lv.contains v = true := fun hc => h2 (List.mem_of_elem_eq_true hc)
          have htok : tokens[i]? = some tokens[i] := List.getElem?_eq_getElem hi
          simp [h1, h2, hc1, hc2, htok, hrec]

theorem decide_eq_filter (r : Identifiers)
    (h : r.defines.length ≤ r.tokens.length) :
    Decide r = some ((r.tokens.zip r.defines).filter
      (fun pv => !(r.funcArgs.contains pv.2) && !(r.lhsVars.contains pv.2))) := by
  have := deciderAux_eq_filter r.funcArgs r.lhsVars r.tokens r.defines 0 (by omega)
  simpa [Decide] using this

theorem deciderAux_not_contains (fa lv : List String) (tokens : List Nat) :
    ∀ (defines : List String) (i : Nat) (fs : List (Nat × String)),
      deciderAux fa lv tokens i defines = some fs →
      ∀ p v, (p, v) ∈ fs → fa.contains v = false ∧ lv.contains v = false := by
  intro defines
  induction defines with
  | nil =>
      intro i fs h p v hmem
      simp only [deciderAux, Option.some.injEq] at h
      subst h
      simp at hmem
  | cons w rest ih =>
      intro i fs h p v hmem
      simp only [deciderAux] at h
      by_cases h1 : fa.contains w
      · rw [if_pos h1] at h
        exact ih (i + 1) fs h p v hmem
      · rw [if_neg h1] at h
        by_cases h2 : lv.contains w
        · rw [if_pos h2] at h
          exact ih (i + 1) fs h p v hmem
        · rw [if_neg h2] at h
          cases htok : tokens[i]? with
          | none => rw [htok] at h; cases h
          | some q =>
              rw [htok] at h
              cases hrec : deciderAux fa lv tokens (i + 1) rest with
              | none => rw [hrec] at h; cases h
              | some fs0 =>
                  rw [hrec] at h
                  have hfs : (q, w) :: fs0 = fs := by simpa using h
                  subst hfs
                  rcases List.mem_cons.mp hmem with heq | hmem0
                  · have hv : v = w := by
                      have := congrArg Prod.snd heq
                      simpa using this
                    subst hv
                    exact ⟨by simpa using h1, by simpa using h2⟩
                  · exact ih (i + 1) fs0 hrec p v hmem0

theorem findings_not_contains (body : List Stmt) (fs : List (Nat × String))
    (h : Traverse body = some fs) (p : Nat) (v : String) (hmem : (p, v) ∈ fs) :
    (TraverseScan body).funcArgs.contains v = false ∧
    (TraverseScan body).lhsVars.contains v = false := by
  have := deciderAux_not_contains (TraverseScan body).funcArgs
    (TraverseScan body).lhsVars (TraverseScan body).tokens
    (TraverseScan body).defines 0 fs (by simpa [Traverse, Decide] using h) p v hmem
  exact this

/-
  Qualification lemmas: the element loop of CheckConstLiteral is the
  conjunction of the per-element test, and a disqualifying element defeats
  it.
-/

theorem CheckConstLiteral_eq_allElems (elts : ExprList) :
    CheckConstLiteral elts = allElems elemQualifies elts := by
  cases elts with
  | nil => rfl
  | cons a rest =>
      have ih := CheckConstLiteral_eq_allElems rest
      cases a with
      | keyValue k v =>
          simp only [CheckConstLiteral, allElems, elemQualifies]
          cases hk : BasicOrSelector k <;> cases hv : BasicOrSelector v <;>
            simp [hk, hv, ih]
      | selector x => simp [CheckConstLiteral, allElems, elemQualifies, ih]
      | basicLit => simp [CheckConstLiteral, allElems, elemQualifies, ih]
      | ident name => simp [CheckConstLiteral, allElems, elemQualifies]
      | binary x y => simp [CheckConstLiteral, allElems, elemQualifies]
      | call fn args => simp [CheckConstLiteral, allElems, elemQualifies]
      | sliceExpr x => simp [CheckConstLiteral, allElems, elemQualifies]
      | indexExpr x => simp [CheckConstLiteral, allElems, elemQualifies]
      | indexListExpr x => simp [CheckConstLiteral, allElems, elemQualifies]
      | paren x => simp [CheckConstLiteral, allElems, elemQualifies]
      | compositeLit ty els => simp [CheckConstLiteral, allElems, elemQualifies]
      | otherExpr => simp [CheckConstLiteral, allElems, elemQualifies]

theorem allElems_false_of_anyElem_disqualifying (elts : ExprList)
    (h : anyElem disqualifying elts = true) :
    allElems elemQualifies elts = false := by
  cases elts with
  | nil => simp [anyElem] at h
  | cons a rest =>
      simp only [anyElem, Bool.or_eq_true] at h
      rcases h with h | h
      · have ha : elemQualifies a = false := by
          cases a <;> simp [disqualifying] at h <;> simp [elemQualifies]
        simp [allElems, ha]
      · have := allElems_false_of_anyElem_disqualifying rest h
        simp [allElems, this]

/-
  Membership and alignment lemmas for the per-statement contribution lists.
-/

theorem mem_bodyLhsNames (s : Stmt) (body : List Stmt) (hs : s ∈ body)
    (v : String) (hv : v ∈ stmtLhsNames s) : v ∈ bodyLhsNames body := by
  induction body with
  | nil => cases hs
  | cons t rest ih =>
      rcases List.mem_cons.mp hs with h | h
      · subst h
        exact List.mem_append_left _ hv
      · exact List.mem_append_right _ (ih h)

theorem stmtDef_align (s : Stmt)
    (h : ∀ (tok : Tok) (lhs : ExprList) (p : Nat) (rhs : ExprList),
        s = Stmt.assignStmt tok lhs p rhs → tok = .DEFINE →
        IsNewDefinition rhs = true → (getVariableNames lhs).length = 1) :
    (stmtDefNames s).length = (stmtDefTokens s).length ∧
    (stmtDefTokens s).zip (stmtDefNames s) = stmtDefPairs s := by
  cases s with
  | assignStmt tok lhs p rhs =>
      by_cases hc : tok = .DEFINE ∧ IsNewDefinition rhs
      · have hlen := h tok lhs p rhs rfl hc.1 hc.2
        obtain ⟨n, hn⟩ := List.length_eq_one.mp hlen
        simp [stmtDefNames, stmtDefTokens, stmtDefPairs, hc, hn]
      · simp [stmtDefNames, stmtDefTokens, stmtDefPairs, hc]
  | exprStmt x => simp [stmtDefNames, stmtDefTokens, stmtDefPairs]
  | otherStmt => simp [stmtDefNames, stmtDefTokens, stmtDefPairs]

theorem bodyDef_align (body : List Stmt)
    (h : ∀ (tok : Tok) (lhs : ExprList) (p : Nat) (rhs : ExprList),
        Stmt.assignStmt tok lhs p rhs ∈ body → tok = .DEFINE →
        IsNewDefinition rhs = true → (getVariableNames lhs).length = 1) :
    (bodyDefNames body).length = (bodyDefTokens body).length ∧
    (bodyDefTokens body).zip (bodyDefNames body) = bodyDefPairs body := by
  induction body with
  | nil => simp [bodyDefNames, bodyDefTokens, bodyDefPairs]
  | cons s rest ih =>
      have hs := stmtDef_align s
        (fun tok lhs p rhs hse => h tok lhs p rhs (hse ▸ List.mem_cons_self s rest))
      have hrest := ih
        (fun tok lhs p rhs hm => h tok lhs p rhs (List.mem_cons_of_mem _ hm))
      constructor
      · simp [bodyDefNames, bodyDefTokens, hs.1, hrest.1]
      · simp only [bodyDefNames, bodyDefTokens, bodyDefPairs]
        rw [List.zip_append hs.1.symm, hs.2, hrest.2]

/-
  Claim theorems.
-/

/-- C1: on a completed Analysis State whose definitions do not outrun their
recorded positions, the Eligibility Decider emits a Finding for exactly
those (position, name) pairs of definitions whose name is contained in
neither funcArgs nor lhsVars, in original definition order; rhsVars plays
no role in the outcome. -/
theorem C1_decider_exact (r : Identifiers)
    (h : r.defines.length ≤ r.tokens.length) :
    Decide r = some ((r.tokens.zip r.defines).filter
      (fun pv => !(r.funcArgs.contains pv.2) && !(r.lhsVars.contains pv.2))) ∧
    ∀ rhs2 : List String, Decide { r with rhsVars := rhs2 } = Decide r := by
  exact ⟨decide_eq_filter r h, fun rhs2 => rfl⟩

/-- C1 witness: a state defining a and b where b is reassigned and a is
read on a right-hand side reports exactly a. -/
theorem C1_witness :
    Decide { defines := ["a", "b"], tokens := [1, 2], lhsVars := ["b"],
             rhsVars := ["a"], funcArgs := [] } = some [(1, "a")] := by
  have h := (C1_decider_exact
    { defines := ["a", "b"], tokens := [1, 2], lhsVars := ["b"],
      rhsVars := ["a"], funcArgs := [] } (by decide)).1
  rw [h]
  decide

/-- C2 counterexample: a bare basic-literal initializer, which is not a
composite literal of map or array type, nevertheless qualifies under
IsNewDefinition, enters definitions and produces a Finding — so the claim
that an initializer enters definitions only if it is such a composite
literal is false as stated. -/
theorem C2_counterexample :
    IsNewDefinition (.cons .basicLit .nil) = true ∧
    Traverse [.assignStmt .DEFINE (.cons (.ident "d") .nil) 3
        (.cons .basicLit .nil)] = some [(3, "d")] := by
  decide

/-- C2 (amended): a single-expression initializer qualifies for definitions
iff it is a bare basic literal or a composite literal of declared map or
array type whose every element is a selector expression, a basic literal,
or a key/value pair of those; a composite literal containing a nested
composite literal, a function-call result, or a bare identifier element
never enters definitions (the define statement leaves the Analysis State
unchanged), and Scenario D's map literal with a nested call element yields
no Findings. -/
theorem C2_qualifying_literal :
    (∀ es : ExprList, IsNewDefinition es = true ↔
      (es = .cons .basicLit .nil ∨
       ∃ ty elts, es = .cons (.compositeLit ty elts) .nil ∧
         (ty = .mapType ∨ ty = .arrayType) ∧ allElems elemQualifies elts = true)) ∧
    (∀ (r : Identifiers) (lhs : ExprList) (p : Nat) (ty : TypeExpr) (elts : ExprList),
      anyElem disqualifying elts = true →
      scanStmt r (.assignStmt .DEFINE lhs p (.cons (.compositeLit ty elts) .nil)) = r) ∧
    Traverse [.assignStmt .DEFINE (.cons (.ident "x") .nil) 1
        (.cons (.compositeLit .mapType
          (.cons (.keyValue .basicLit (.call (.ident "compute") .nil)) .nil)) .nil)] =
      some [] := by
  refine ⟨?_, ?_, by decide⟩
  · intro es
    cases es with
    | nil => simp [IsNewDefinition]
    | cons e tail =>
        cases tail with
        | cons e2 t2 => simp [IsNewDefinition]
        | nil =>
            cases e with
            | compositeLit ty elts =>
                cases ty with
                | mapType =>
                    simp only [IsNewDefinition, CheckConstLiteral_eq_allElems]
                    constructor
                    · intro h
                      exact Or.inr ⟨.mapType, elts, rfl, Or.inl rfl, h⟩
                    · rintro (h | ⟨ty1, elts1, heq, hty, hall⟩)
                      · cases h
                      · obtain ⟨hty1, hel⟩ := by
                          simpa using heq
                        subst hty1
                        subst hel
                        exact hall
                | arrayType =>
                    simp only [IsNewDefinition, CheckConstLiteral_eq_allElems]
                    constructor
                    · intro h
                      exact Or.inr ⟨.arrayType, elts, rfl, Or.inr rfl, h⟩
                    · rintro (h | ⟨ty1, elts1, heq, hty, hall⟩)
                      · cases h
                      · obtain ⟨hty1, hel⟩ := by
                          simpa using heq
                        subst hty1
                        subst hel
                        exact hall
                | otherType => simp [IsNewDefinition]
            | basicLit => simp [IsNewDefinition]
            | ident name => simp [IsNewDefinition]
            | selector x => simp [IsNewDefinition]
            | binary x y => simp [IsNewDefinition]
            | call fn args => simp [IsNewDefinition]
            | sliceExpr x => simp [IsNewDefinition]
            | indexExpr x => simp [IsNewDefinition]
            | indexListExpr x => simp [IsNewDefinition]
            | paren x => simp [IsNewDefinition]
            | keyValue k v => simp [IsNewDefinition]
            | otherExpr => simp [IsNewDefinition]
  · intro r lhs p ty elts h
    have hq : CheckConstLiteral elts = false := by
      rw [CheckConstLiteral_eq_allElems]
      exact allElems_false_of_anyElem_disqualifying elts h
    have hnd : IsNewDefinition (.cons (.compositeLit ty elts) .nil) = false := by
      cases ty <;> simp [IsNewDefinition, hq]
    simp [scanStmt, hnd]

/-- C2 witness: a slice literal whose element is a function call leaves the
Analysis State unchanged. -/
theorem C2_witness :
    scanStmt emptyIdentifiers (.assignStmt .DEFINE (.cons (.ident "x") .nil) 0
      (.cons (.compositeLit .arrayType
        (.cons (.call (.ident "compute") .nil) .nil)) .nil)) = emptyIdentifiers :=
  C2_qualifying_literal.2.1 emptyIdentifiers _ 0 .arrayType _ (by decide)

/-- C3: call arguments are always classified in argument-context whatever
mode is in effect at the call site; the funcArgs of a scanned Function Unit
are exactly the names reached as call arguments along any plain-use or
argument-context classifier path, and such a name never appears in the
emitted Findings. -/
theorem C3_call_args_argument_context :
    (∀ (fn : Expr) (args : ExprList) (r : Identifiers) (function : Bool),
        parse (.call fn args) r function = parse (.call fn args) r true) ∧
    (∀ body : List Stmt, (TraverseScan body).funcArgs = bodyArgIdents body) ∧
    (∀ (body : List Stmt) (fs : List (Nat × String)) (v : String),
        Traverse body = some fs → v ∈ bodyArgIdents body →
        ∀ p : Nat, (p, v) ∉ fs) := by
  refine ⟨fun fn args r function => by simp [parse], TraverseScan_funcArgs, ?_⟩
  intro body fs v htrav hv p hmem
  have h := (findings_not_contains body fs htrav p v hmem).1
  rw [TraverseScan_funcArgs] at h
  have hc : (bodyArgIdents body).contains v = true := List.elem_eq_true_of_mem hv
  rw [hc] at h
  cases h

/-- C3 witness: in x := map[string]string{}; Do(x) the name x is reached as
a call argument, the unit reports nothing, and in particular (1, x) is not
among the Findings. -/
theorem C3_witness :
    Traverse scenarioBareCall = some [] ∧
    ((1 : Nat), "x") ∉ ([] : List (Nat × String)) :=
  ⟨by decide, C3_call_args_argument_context.2.2 scenarioBareCall [] "x"
    (by decide) (by decide) 1⟩

/-- C4: a defined variable whose name is the target of a top-level plain
assignment anywhere in the unit is recorded in lhsVars, a name contained in
lhsVars never appears in the emitted Findings, and Scenario A
(a := map[string]string{}; a = nil) produces zero Findings. -/
theorem C4_reassigned_never_reported :
    (∀ (body : List Stmt) (tok : Tok) (lhs : ExprList) (p : Nat)
        (rhs : ExprList) (v : String),
        Stmt.assignStmt tok lhs p rhs ∈ body → tok = .ASSIGN →
        v ∈ getVariableNames lhs → v ∈ (TraverseScan body).lhsVars) ∧
    (∀ (body : List Stmt) (fs : List (Nat × String)) (v : String),
        Traverse body = some fs → v ∈ (TraverseScan body).lhsVars →
        ∀ q : Nat, (q, v) ∉ fs) ∧
    Traverse scenarioA = some [] := by
  refine ⟨?_, ?_, by decide⟩
  · intro body tok lhs p rhs v hmem htok hv
    subst htok
    rw [TraverseScan_lhsVars]
    refine mem_bodyLhsNames _ _ hmem v ?_
    simpa [stmtLhsNames] using hv
  · intro body fs v htrav hv q hmem
    have h := (findings_not_contains body fs htrav q v hmem).2
    have hc : (TraverseScan body).lhsVars.contains v = true :=
      List.elem_eq_true_of_mem hv
    rw [hc] at h
    cases h

/-- C4 witness: in Scenario A the reassigned name a is in lhsVars and the
unit reports nothing. -/
theorem C4_witness :
    "a" ∈ (TraverseScan scenarioA).lhsVars ∧ Traverse scenarioA = some [] :=
  ⟨C4_reassigned_never_reported.1 scenarioA .ASSIGN (.cons (.ident "a") .nil) 2
      (.cons (.ident "nil") .nil) "a" (by decide) rfl (by decide),
   by decide⟩

/-- C5 counterexample: a single qualifying define statement introducing two
left-hand names appends two names to defines but only one position to
tokens, and the decider's position lookup goes out of range (the modelled
panic), so analysing a Function Unit is not total as claimed. -/
theorem C5_counterexample :
    Traverse [.assignStmt .DEFINE (.cons (.ident "a") (.cons (.ident "b") .nil)) 5
        (.cons (.compositeLit .mapType .nil) .nil)] = none := by
  decide

/-- C5 (amended): if every qualifying define statement of the unit
introduces exactly one left-hand name, then defines and tokens stay
aligned, each definition is paired with the position of the first left-hand
target of its statement, and the decider's position lookup is always in
range, so the analysis is total. -/
theorem C5_single_target_total (body : List Stmt)
    (h : ∀ (tok : Tok) (lhs : ExprList) (p : Nat) (rhs : ExprList),
        Stmt.assignStmt tok lhs p rhs ∈ body → tok = .DEFINE →
        IsNewDefinition rhs = true → (getVariableNames lhs).length = 1) :
    (TraverseScan body).defines.length = (TraverseScan body).tokens.length ∧
    (TraverseScan body).tokens.zip (TraverseScan body).defines = bodyDefPairs body ∧
    ∃ fs, Traverse body = some fs := by
  have halign := bodyDef_align body h
  refine ⟨?_, ?_, ?_⟩
  · rw [TraverseScan_defines, TraverseScan_tokens]
    exact halign.1
  · rw [TraverseScan_defines, TraverseScan_tokens]
    exact halign.2
  · have hle : (TraverseScan body).defines.length ≤ (TraverseScan body).tokens.length := by
      rw [TraverseScan_defines, TraverseScan_tokens]
      omega
    exact ⟨_, decide_eq_filter (TraverseScan body) hle⟩

/-- C5 witness: a unit with one single-name qualifying define is analysed
totally and its definition is paired with its statement's position. -/
theorem C5_witness :
    (TraverseScan [.assignStmt .DEFINE (.cons (.ident "a") .nil) 7
        (.cons (.compositeLit .mapType .nil) .nil)]).defines.length =
      (TraverseScan [.assignStmt .DEFINE (.cons (.ident "a") .nil) 7
        (.cons (.compositeLit .mapType .nil) .nil)]).tokens.length ∧
    (TraverseScan [.assignStmt .DEFINE (.cons (.ident "a") .nil) 7
        (.cons (.compositeLit .mapType .nil) .nil)]).tokens.zip
      (TraverseScan [.assignStmt .DEFINE (.cons (.ident "a") .nil) 7
        (.cons (.compositeLit .mapType .nil) .nil)]).defines =
      bodyDefPairs [.assignStmt .DEFINE (.cons (.ident "a") .nil) 7
        (.cons (.compositeLit .mapType .nil) .nil)] ∧
    ∃ fs, Traverse [.assignStmt .DEFINE (.cons (.ident "a") .nil) 7
        (.cons (.compositeLit .mapType .nil) .nil)] = some fs := by
  refine C5_single_target_total _ ?_
  intro tok lhs p rhs hmem htok hdef
  simp only [List.mem_singleton] at hmem
  injection hmem with h1 h2 h3 h4
  subst h2
  decide

/-- C6 counterexample: for the bare call statement a.Foo() the receiver a
is recorded nowhere — the scanned Analysis State is still empty and its
rhsVars does not contain a — refuting the claim that call receivers enter
rhsUses. -/
theorem C6_counterexample :
    TraverseScan [.exprStmt (.call (.selector (.ident "a")) .nil)] =
      emptyIdentifiers ∧
    (TraverseScan [.exprStmt (.call (.selector (.ident "a")) .nil)]).rhsVars.contains
      "a" = false := by
  decide

/-- C6 (amended): the classifier ignores a call's Fun expression entirely
and classifies only its arguments, so the receiver of a call evaluated as a
bare expression statement is never recorded in rhsVars (or anywhere
else). -/
theorem C6_receiver_ignored :
    (∀ (fn : Expr) (args : ExprList) (r : Identifiers) (function : Bool),
        parse (.call fn args) r function = parseFunc args r) ∧
    (∀ (name : String) (args : ExprList) (r : Identifiers),
        (parse (.call (.selector (.ident name)) args) r false).rhsVars =
          (parseFunc args r).rhsVars) := by
  exact ⟨fun fn args r function => by simp [parse],
         fun name args r => by simp [parse]⟩

/-- C7 counterexample: the two observed variants of the qualification rule
disagree on a bare basic-literal initializer: IsNewDefinition accepts it
while IsMapOrSlice rejects it, so they do not compute the same predicate. -/
theorem C7_counterexample :
    IsNewDefinition (.cons .basicLit .nil) = true ∧
    IsMapOrSlice (.cons .basicLit .nil) = false := by
  decide

/-- C7 (amended): the two variants agree on every single-expression
initializer except the bare basic literal — IsMapOrSlice accepts exactly
what IsNewDefinition accepts minus the basic-literal case — and under
main.go's IsNewDefinition rule Scenario B reports d (a basic-literal
definition never reassigned and never passed to a call) and the unused c,
in definition order. -/
theorem C7_variant_relation (es : ExprList) :
    (IsMapOrSlice es = true ↔
      (IsNewDefinition es = true ∧ es ≠ .cons .basicLit .nil)) ∧
    Traverse scenarioB = some [(1, "d"), (2, "c")] := by
  refine ⟨?_, by decide⟩
  cases es with
  | nil => simp [IsMapOrSlice, IsNewDefinition]
  | cons e tail =>
      cases tail with
      | cons e2 t2 => simp [IsMapOrSlice, IsNewDefinition]
      | nil =>
          cases e with
          | compositeLit ty elts => cases ty <;> simp [IsMapOrSlice, IsNewDefinition]
          | basicLit => simp [IsMapOrSlice, IsNewDefinition]
          | ident name => simp [IsMapOrSlice, IsNewDefinition]
          | selector x => simp [IsMapOrSlice, IsNewDefinition]
          | binary x y => simp [IsMapOrSlice, IsNewDefinition]
          | call fn args => simp [IsMapOrSlice, IsNewDefinition]
          | sliceExpr x => simp [IsMapOrSlice, IsNewDefinition]
          | indexExpr x => simp [IsMapOrSlice, IsNewDefinition]
          | indexListExpr x => simp [IsMapOrSlice, IsNewDefinition]
          | paren x => simp [IsMapOrSlice, IsNewDefinition]
          | keyValue k v => simp [IsMapOrSlice, IsNewDefinition]
          | otherExpr => simp [IsMapOrSlice, IsNewDefinition]

/-- C7 witness: an empty map literal qualifies under IsMapOrSlice by the
variant relation, and Scenario B reports d then c. -/
theorem C7_witness :
    IsMapOrSlice (.cons (.compositeLit .mapType .nil) .nil) = true ∧
    Traverse scenarioB = some [(1, "d"), (2, "c")] := by
  have h := C7_variant_relation (.cons (.compositeLit .mapType .nil) .nil)
  exact ⟨h.1.mpr ⟨by decide, by decide⟩, h.2⟩

/-- C8: the Eligibility Decider is a pure, deterministic function of the
definitions, tokens, lhsVars and funcArgs of the Analysis State — two
states agreeing on those components (rhsVars free) receive identical
Findings in identical order, so re-running it on an unmodified state
yields the same result. -/
theorem C8_decider_pure (r1 r2 : Identifiers)
    (h1 : r1.defines = r2.defines) (h2 : r1.tokens = r2.tokens)
    (h3 : r1.lhsVars = r2.lhsVars) (h4 : r1.funcArgs = r2.funcArgs) :
    Decide r1 = Decide r2 := by
  simp [Decide, h1, h2, h3, h4]

/-- C8 witness: two concrete states differing only in rhsVars decide
identically. -/
theorem C8_witness :
    Decide { defines := ["a"], tokens := [3], lhsVars := [],
             rhsVars := ["x"], funcArgs := [] } =
    Decide { defines := ["a"], tokens := [3], lhsVars := [],
             rhsVars := ["y"], funcArgs := [] } :=
  C8_decider_pure _ _ rfl rfl rfl rfl

/-- C9: a short-form declaration whose right-hand side is not a qualifying
literal leaves the entire Analysis State unchanged, so in
x := map[string]string{}; y := Do(x) the argument x is not recorded in
funcArgs and x is still reported. -/
theorem C9_nonqualifying_define_frame :
    (∀ (r : Identifiers) (lhs : ExprList) (p : Nat) (rhs : ExprList),
        IsNewDefinition rhs = false →
        scanStmt r (.assignStmt .DEFINE lhs p rhs) = r) ∧
    Traverse scenarioDefineCall = some [(1, "x")] := by
  refine ⟨?_, by decide⟩
  intro r lhs p rhs h
  simp [scanStmt, h]

/-- C9 witness: the statement y := Do(x) leaves the empty Analysis State
unchanged. -/
theorem C9_witness :
    scanStmt emptyIdentifiers (.assignStmt .DEFINE (.cons (.ident "y") .nil) 2
      (.cons (.call (.ident "Do") (.cons (.ident "x") .nil)) .nil)) =
      emptyIdentifiers :=
  C9_nonqualifying_define_frame.1 emptyIdentifiers _ 2 _ (by decide)

/-- C10: getVariableNames unwraps parenthesized, index and index-list
targets to their base expression and maps a call target to its arguments;
a plain assignment appends exactly those extracted names to lhsVars (so
m["k"] = v adds m), and the unit m := map[string]string{}; m["k"] = v
produces zero Findings. -/
theorem C10_index_target_base :
    (∀ e : Expr, getVariableNames1 (.paren e) = getVariableNames1 e ∧
        getVariableNames1 (.indexExpr e) = getVariableNames1 e ∧
        getVariableNames1 (.indexListExpr e) = getVariableNames1 e) ∧
    (∀ (fn : Expr) (args : ExprList),
        getVariableNames1 (.call fn args) = getVariableNames args) ∧
    (∀ name : String, name ≠ "" →
        getVariableNames (.cons (.indexExpr (.ident name)) .nil) = [name]) ∧
    (∀ (r : Identifiers) (lhs : ExprList) (p : Nat) (rhs : ExprList),
        (scanStmt r (.assignStmt .ASSIGN lhs p rhs)).lhsVars =
          r.lhsVars ++ getVariableNames lhs) ∧
    Traverse scenarioIndexWrite = some [] := by
  refine ⟨?_, ?_, ?_, ?_, by decide⟩
  · intro e
    exact ⟨by simp [getVariableNames1], by simp [getVariableNames1],
           by simp [getVariableNames1]⟩
  · intro fn args
    simp [getVariableNames1]
  · intro name h
    simp [getVariableNames, getVariableNames1, h]
  · intro r lhs p rhs
    rw [scanStmt_lhsVars]
    simp [stmtLhsNames]

/-- C10 witness: the index target m["k"] contributes its base name m, and
the index-write unit reports nothing. -/
theorem C10_witness :
    getVariableNames (.cons (.indexExpr (.ident "m")) .nil) = ["m"] ∧
    Traverse scenarioIndexWrite = some [] :=
  ⟨C10_index_target_base.2.2.1 "m" (by decide), C10_index_target_base.2.2.2.2⟩

end Allocateless
